import Mathlib

/-!
Verification of the safe-bash command-policy gate.

The development shallowly embeds the Rust sources of `hooks/safe-bash`:
`patterns.rs` (the hardcoded deny patterns, the quote-aware command
splitter and the hardcoded check), `config.rs` (loading and checking the
user-supplied allow/deny rule document), `main.rs` (the hook envelope and
the overall verdict) and `autoupdate.rs` (the staleness-driven refresh
trigger).  Regex matching is embedded as an executable matcher for the
regex subset the program uses (literals, classes, `.`, `^`, `$`, word
boundaries, `\s`/`\S`, groups, alternation, `*`/`+`/`?`, and the `(?i)` /
`(?m)` flags), with `is_match` substring-search semantics.
-/

namespace SafeBash

/-! ## Character predicates (ASCII fragment of the regex crate's classes) -/

/-- Word character, as used by the `\b` word-boundary assertion. -/
def isWordChar (c : Char) : Bool :=
  (97 ≤ c.toNat && c.toNat ≤ 122) || (65 ≤ c.toNat && c.toNat ≤ 90) ||
  (48 ≤ c.toNat && c.toNat ≤ 57) || c = '_'

/-- Whitespace, as matched by `\s`. -/
def isWsChar (c : Char) : Bool :=
  c = ' ' || c = '\t' || c = '\n' || c = '\r' || c = '\x0b' || c = '\x0c'

/-- ASCII lower-casing, for `(?i)` case-insensitive matching. -/
def lowerChar (c : Char) : Char :=
  if 65 ≤ c.toNat && c.toNat ≤ 90 then Char.ofNat (c.toNat + 32) else c

/-- ASCII upper-casing, for `(?i)` case-insensitive class matching. -/
def upperChar (c : Char) : Char :=
  if 97 ≤ c.toNat && c.toNat ≤ 122 then Char.ofNat (c.toNat - 32) else c

/-! ## Regex abstract syntax -/

/-- One item of a character class `[...]`. -/
inductive CItem where
  | ch (c : Char)
  | range (lo hi : Char)
  | ws
  deriving DecidableEq

/-- Regex abstract syntax for the subset the program uses. -/
inductive RE where
  | eps
  | lit (c : Char)
  | anyc
  | cls (neg : Bool) (items : List CItem)
  | bol
  | eol
  | wb
  | cat (a b : RE)
  | alt (a b : RE)
  | star (a : RE)
  deriving DecidableEq

/-- Flags: `(?i)` case-insensitive and `(?m)` multi-line. -/
structure RFlags where
  ci : Bool := false
  ml : Bool := false
  deriving DecidableEq

/-- A compiled regex: flags plus syntax tree. -/
structure CompiledRegex where
  flags : RFlags := {}
  re : RE := .eps
  deriving DecidableEq

/-- Does a single class item accept the character? -/
def citemMatch (x : Char) : CItem → Bool
  | .ch c => x = c
  | .range lo hi => lo.toNat ≤ x.toNat && x.toNat ≤ hi.toNat
  | .ws => isWsChar x

/-- Class membership, with case folding when the `i` flag is set. -/
def clsMatch (ci neg : Bool) (items : List CItem) (x : Char) : Bool :=
  let hit := items.any fun it =>
    citemMatch x it ||
      (ci && (citemMatch (lowerChar x) it || citemMatch (upperChar x) it))
  if neg then !hit else hit

/-- Literal character match, case-folded when the `i` flag is set. -/
def litMatch (ci : Bool) (c x : Char) : Bool :=
  x = c || (ci && lowerChar x = lowerChar c)

/-- Word-character test on an optional character (`none` = outside the text). -/
def optWord : Option Char → Bool
  | none => false
  | some c => isWordChar c

/-- Structural size of a regex, used to bound the matcher's fuel. -/
def reSize : RE → Nat
  | .eps | .lit _ | .anyc | .cls _ _ | .bol | .eol | .wb => 1
  | .cat a b | .alt a b => reSize a + reSize b + 1
  | .star a => reSize a + 1

/-- Backtracking matcher.  A position is the previous character (for `^`
and `\b`) plus the remaining input; the result lists every position the
regex can reach from the given one.  `fuel` bounds recursion depth. -/
def mRE (fl : RFlags) : Nat → RE → Option Char → List Char → List (Option Char × List Char)
  | 0, _, _, _ => []
  | _ + 1, .eps, p, s => [(p, s)]
  | _ + 1, .lit c, _, s =>
    match s with
    | [] => []
    | x :: xs => if litMatch fl.ci c x then [(some x, xs)] else []
  | _ + 1, .anyc, _, s =>
    match s with
    | [] => []
    | x :: xs => if x = '\n' then [] else [(some x, xs)]
  | _ + 1, .cls neg items, _, s =>
    match s with
    | [] => []
    | x :: xs => if clsMatch fl.ci neg items x then [(some x, xs)] else []
  | _ + 1, .bol, p, s =>
    if p = none || (fl.ml && p = some '\n') then [(p, s)] else []
  | _ + 1, .eol, p, s =>
    match s with
    | [] => [(p, s)]
    | x :: _ => if fl.ml && x = '\n' then [(p, s)] else []
  | _ + 1, .wb, p, s =>
    if optWord p != optWord s.head? then [(p, s)] else []
  | fuel + 1, .cat a b, p, s =>
    (mRE fl fuel a p s).flatMap fun pr => mRE fl fuel b pr.1 pr.2
  | fuel + 1, .alt a b, p, s => mRE fl fuel a p s ++ mRE fl fuel b p s
  | fuel + 1, .star a, p, s =>
    (p, s) :: (mRE fl fuel a p s).flatMap fun pr =>
      if pr.2.length < s.length then mRE fl fuel (.star a) pr.1 pr.2 else []

/-- All start positions of the input (previous character, remaining text). -/
def positionsFrom (p : Option Char) : List Char → List (Option Char × List Char)
  | [] => [(p, [])]
  | c :: cs => (p, c :: cs) :: positionsFrom (some c) cs

/-- Substring-search match (`Regex::is_match`): the regex matches starting
at some position of the input. -/
def isMatchL (r : CompiledRegex) (cs : List Char) : Bool :=
  (positionsFrom none cs).any fun pr =>
    !(mRE r.flags ((reSize r.re + 2) * (cs.length + 2)) r.re pr.1 pr.2).isEmpty

/-- `Regex::is_match` on a string. -/
def isMatch (r : CompiledRegex) (s : String) : Bool :=
  isMatchL r s.data

/-! ## Regex concrete syntax: the compiler (`Regex::new`) for the used subset -/

/-- Escape sequences appearing outside classes. -/
def escRE (c : Char) : Option RE :=
  match c with
  | 's' => some (.cls false [.ws])
  | 'S' => some (.cls true [.ws])
  | 'b' => some .wb
  | 'n' => some (.lit '\n')
  | 't' => some (.lit '\t')
  | _ => if c.isAlphanum then none else some (.lit c)

/-- Escape sequences appearing inside classes. -/
def escCItem (c : Char) : Option CItem :=
  match c with
  | 's' => some .ws
  | 'n' => some (.ch '\n')
  | 't' => some (.ch '\t')
  | _ => if c.isAlphanum then none else some (.ch c)

/-- Parse the items of a character class up to the closing `]`. -/
def pClassItems : Nat → List Char → Option (List CItem × List Char)
  | 0, _ => none
  | _ + 1, [] => none
  | _ + 1, (']' :: rest) => some ([], rest)
  | fuel + 1, ('\\' :: e :: rest) => do
    let it ← escCItem e
    let (more, rest2) ← pClassItems fuel rest
    pure (it :: more, rest2)
  | _ + 1, (a :: '-' :: ']' :: rest) => some ([.ch a, .ch '-'], rest)
  | fuel + 1, (a :: '-' :: b :: rest) =>
    if a.toNat ≤ b.toNat then do
      let (more, rest2) ← pClassItems fuel rest
      pure (.range a b :: more, rest2)
    else none
  | fuel + 1, (a :: rest) => do
    let (more, rest2) ← pClassItems fuel rest
    pure (.ch a :: more, rest2)

/-- Parse a class body (after `[`), handling `^` negation. -/
def pClass (fuel : Nat) (cs : List Char) : Option (RE × List Char) := do
  let (neg, body) :=
    match cs with
    | '^' :: rest => (true, rest)
    | _ => (false, cs)
  let (items, rest) ← pClassItems fuel body
  if items.isEmpty then none else pure (.cls neg items, rest)

/-- Apply postfix quantifiers `*`, `+`, `?` to the atom just parsed. -/
def applyReps : RE → List Char → RE × List Char
  | r, '*' :: cs => applyReps (.star r) cs
  | r, '+' :: cs => applyReps (.cat r (.star r)) cs
  | r, '?' :: cs => applyReps (.alt r .eps) cs
  | r, cs => (r, cs)

/-- Parser modes: alternation level, concatenation level, single atom. -/
inductive PMode where
  | palt
  | pcat
  | patom

/-- Recursive-descent regex parser over the three grammar levels, fuelled. -/
def pRun : Nat → PMode → List Char → Option (RE × List Char)
  | 0, _, _ => none
  | fuel + 1, .palt, cs => do
    let (a, rest) ← pRun fuel .pcat cs
    match rest with
    | '|' :: rest2 => do
      let (b, rest3) ← pRun fuel .palt rest2
      pure (.alt a b, rest3)
    | _ => pure (a, rest)
  | fuel + 1, .pcat, cs =>
    match cs with
    | [] => some (.eps, [])
    | ')' :: _ => some (.eps, cs)
    | '|' :: _ => some (.eps, cs)
    | _ => do
      let (a, rest) ← pRun fuel .patom cs
      let (a2, rest2) := applyReps a rest
      let (b, rest3) ← pRun fuel .pcat rest2
      pure (.cat a2 b, rest3)
  | fuel + 1, .patom, cs =>
    match cs with
    | '(' :: '?' :: ':' :: rest => do
      let (a, rest2) ← pRun fuel .palt rest
      match rest2 with
      | ')' :: rest3 => pure (a, rest3)
      | _ => none
    | '(' :: '?' :: _ => none
    | '(' :: rest => do
      let (a, rest2) ← pRun fuel .palt rest
      match rest2 with
      | ')' :: rest3 => pure (a, rest3)
      | _ => none
    | '[' :: rest => pClass (rest.length + 1) rest
    | '\\' :: e :: rest => (escRE e).map (·, rest)
    | '^' :: rest => some (.bol, rest)
    | '$' :: rest => some (.eol, rest)
    | '.' :: rest => some (.anyc, rest)
    | '*' :: _ => none
    | '+' :: _ => none
    | '?' :: _ => none
    | '\x7b' :: _ => none
    | ')' :: _ => none
    | '|' :: _ => none
    | '\\' :: [] => none
    | [] => none
    | c :: rest => some (.lit c, rest)

/-- Strip leading inline flag groups `(?i)` / `(?m)`. -/
def parseFlags : List Char → RFlags × List Char
  | '(' :: '?' :: 'i' :: ')' :: rest =>
    let (f, r) := parseFlags rest
    ({ f with ci := true }, r)
  | '(' :: '?' :: 'm' :: ')' :: rest =>
    let (f, r) := parseFlags rest
    ({ f with ml := true }, r)
  | cs => ({}, cs)

/-- The regex compiler (`Regex::new`): `none` models a compile error. -/
def parseRegex (s : String) : Option CompiledRegex :=
  let (fl, rest) := parseFlags s.data
  match pRun (3 * rest.length + 9) .palt rest with
  | some (r, []) => some { flags := fl, re := r }
  | _ => none

/-! ## patterns.rs: hardcoded deny patterns -/

/-- A single deny pattern with the regex and a human-readable reason
(`DenyPattern` in `patterns.rs`). -/
structure DenyPattern where
  re : CompiledRegex
  reason : String
  deriving DecidableEq

/-- The `(pattern, reason)` pairs of `hardcoded_deny_patterns()` in
`patterns.rs`, verbatim. -/
def hardcodedSpecs : List (String × String) := [
  ("(?i)(?:^|[\\s;|&])\\s*rm\\s+(-\\S*[rR]\\S*[fF]\\S*|-\\S*[fF]\\S*[rR]\\S*)\\b", "Destructive: rm -rf"),
  ("(?i)(?:^|[\\s;|&])\\s*rm\\s+-[rR]\\b", "Destructive: rm -r"),
  ("(?i)\\brmdir\\b", "Destructive: rmdir"),
  ("(?i)\\bmkfs\\b", "Destructive: mkfs (overwrites filesystem)"),
  ("(?i)\\bdd\\s+if=", "Destructive: dd if= (disk write)"),
  ("(?i)\\bshred\\b", "Destructive: shred (secure file deletion)"),
  ("(?i)\\bgit\\s+push\\s+.*(-f|--force)\\b", "Destructive: git force push"),
  ("(?i)\\bgit\\s+reset\\s+--hard\\b", "Destructive: git reset --hard"),
  ("(?i)\\bgit\\s+clean\\b", "Destructive: git clean"),
  ("(?i)\\bgit\\s+checkout\\s+--\\s", "Destructive: git checkout --"),
  ("(?i)\\bgit\\s+restore\\b", "Destructive: git restore"),
  ("\\bgit\\s+branch\\s+(-D|--delete\\s+-f)\\b", "Destructive: git branch -D"),
  ("(?i)\\bchmod\\s+-R\\s+777\\b", "Dangerous: chmod -R 777"),
  ("(?i)\\bchmod\\s+777\\s+/", "Dangerous: chmod 777 /"),
  ("(?i)\\b(bash|sh|zsh|ksh|dash)\\s+-c\\s+[\"']?[^\"']*\\brm\\s+-(rf|fr|r)\\b", "Shell injection: rm inside shell -c"),
  ("(?i)\\b(bash|sh|zsh|ksh|dash)\\s+-c\\s+[\"']?[^\"']*\\b(mkfs|dd\\s+if=|shred)\\b", "Shell injection: destructive command inside shell -c"),
  ("(?i)\\beval\\s+", "Dangerous: eval execution"),
  ("(?i)\\|\\s*(bash|sh|zsh|ksh|dash)\\b", "Shell injection: pipe to shell"),
  ("(?i)\\|\\s*curl\\s+.*-X\\s+POST\\b", "Exfiltration: pipe to curl POST"),
  ("(?i)\\|\\s*curl\\b", "Exfiltration: pipe to curl"),
  ("(?i)\\b(nc|netcat)\\s+", "Exfiltration: netcat"),
  ("(?i)\\b(cat|head|tail|less|more|bat)\\s+.*~?/?\\.?ssh/", "Sensitive: reading SSH key"),
  ("(?i)\\b(cat|head|tail|less|more|bat)\\s+.*~?/?\\.?aws/", "Sensitive: reading AWS credentials"),
  ("(?i)\\b(cat|head|tail|less|more|bat)\\s+.*\\.env\\b", "Sensitive: reading .env file"),
  ("(?i)\\b(cat|head|tail|less|more|bat)\\s+.*\\.env\\.", "Sensitive: reading .env.* file"),
  ("(?i)\\bgh\\s+api\\s+.*-X\\s+DELETE\\b", "Destructive: gh api DELETE"),
  ("(?i)\\bgh\\s+api\\s+.*-X\\s+PUT\\b", "Destructive: gh api PUT"),
  ("(?i)\\bgh\\s+api\\s+.*-X\\s+POST\\b", "Destructive: gh api POST"),
  ("(?m)^\\s*>\\s*\\S", "Destructive: file truncation (> file)"),
  (";\\s*>\\s*\\S", "Destructive: file truncation (> file) in chain"),
  ("&&\\s*>\\s*\\S", "Destructive: file truncation (> file) in chain"),
  ("(?i)\\bsed\\s+(-[a-zA-Z]*i[a-zA-Z]*|--in-place)\\b", "Destructive: sed -i (in-place edit)"),
  (":\\(\\)\\s*\\\x7b.*:\\s*\\|.*:.*&", "System: fork bomb"),
  ("(?i)\\bshutdown\\b", "System: shutdown"),
  ("(?i)\\breboot\\b", "System: reboot"),
  ("(?i)\\bkill\\s+-9\\s+-1\\b", "System: kill -9 -1 (kill all processes)"),
  ("(?i)\\bpkill\\s+-9\\s+-1\\b", "System: pkill -9 -1 (kill all processes)")]

/-- `hardcoded_deny_patterns()`: every entry compiled.  (In the source an
entry failing to compile would panic; here all 37 entries compile, see
`hardcoded_deny_patterns_length`.) -/
def hardcoded_deny_patterns : List DenyPattern :=
  hardcodedSpecs.filterMap fun pr => (parseRegex pr.1).map fun r => ⟨r, pr.2⟩

/-! ## patterns.rs: split_command -/

/-- Trim ASCII whitespace from both ends (Rust's `str::trim` on these
inputs). -/
def trimChars (cs : List Char) : List Char :=
  ((cs.dropWhile isWsChar).reverse.dropWhile isWsChar).reverse

/-- Append the trimmed accumulated segment if non-empty (the repeated
`trim`/`is_empty`/`push` step of `split_command`). -/
def pushSeg (segs : List (List Char)) (cur : List Char) : List (List Char) :=
  let t := trimChars cur
  if t.isEmpty then segs else segs ++ [t]

/-- The state machine of `split_command` in `patterns.rs`: one step per
character, tracking single- and double-quote modes, splitting on the
top-level operators `&&`, `||`, `;` and single `|` (the latter pre-seeding
the next segment with a `|`). -/
def splitGo : List Char → Bool → Bool → List Char → List (List Char) → List (List Char)
  | [], _, _, cur, segs => pushSeg segs cur
  | '\'' :: rest, sq, false, cur, segs => splitGo rest (!sq) false (cur ++ ['\'']) segs
  | '"' :: rest, false, dq, cur, segs => splitGo rest false (!dq) (cur ++ ['"']) segs
  | '&' :: '&' :: rest, false, false, cur, segs => splitGo rest false false [] (pushSeg segs cur)
  | '|' :: '|' :: rest, false, false, cur, segs => splitGo rest false false [] (pushSeg segs cur)
  | '|' :: rest, false, false, cur, segs => splitGo rest false false ['|'] (pushSeg segs cur)
  | ';' :: rest, false, false, cur, segs => splitGo rest false false [] (pushSeg segs cur)
  | c :: rest, sq, dq, cur, segs => splitGo rest sq dq (cur ++ [c]) segs

/-- `split_command` on character lists. -/
def splitL (cs : List Char) : List (List Char) :=
  splitGo cs false false [] []

/-- `split_command(cmd)`: quote-aware splitting into trimmed non-empty
segments. -/
def split_command (cmd : String) : List String :=
  (splitL cmd.data).map String.mk

/-! ## patterns.rs: check_segment and check_command -/

/-- `CheckResult` in `patterns.rs`. -/
inductive CheckResult where
  | allow
  | deny (reason : String)
  deriving DecidableEq

/-- `check_segment`: first matching hardcoded pattern wins. -/
def check_segmentL (seg : List Char) : List DenyPattern → CheckResult
  | [] => .allow
  | p :: ps => if isMatchL p.re seg then .deny p.reason else check_segmentL seg ps

/-- The per-segment loop of `check_command`. -/
def checkSegsL (patterns : List DenyPattern) : List (List Char) → CheckResult
  | [] => .allow
  | s :: rest =>
    match check_segmentL s patterns with
    | .deny r => .deny r
    | .allow => checkSegsL patterns rest

/-- `check_command` on character lists: full command first, then each
split segment. -/
def check_commandL (cmd : List Char) (patterns : List DenyPattern) : CheckResult :=
  match check_segmentL cmd patterns with
  | .deny r => .deny r
  | .allow => checkSegsL patterns (splitL cmd)

/-- `check_command(cmd, patterns)` in `patterns.rs`. -/
def check_command (cmd : String) (patterns : List DenyPattern) : CheckResult :=
  check_commandL cmd.data patterns

/-! ## config.rs: the user rule document -/

/-- `ConfigPattern`: one `{pattern, reason}` entry of the document. -/
structure ConfigPattern where
  pattern : String
  reason : String
  deriving DecidableEq

/-- `PatternsConfig`: the parsed document shape (`version`, `deny`,
`allow`, all defaulting). -/
structure PatternsConfig where
  version : Nat := 0
  deny : List ConfigPattern := []
  allow : List ConfigPattern := []
  deriving DecidableEq

/-- `CompiledPattern`: a compiled config deny/allow entry. -/
structure CompiledPattern where
  re : CompiledRegex
  reason : String
  deriving DecidableEq

/-- `CompiledConfig`: compiled result from loading the config file. -/
structure CompiledConfig where
  deny : List CompiledPattern := []
  allow : List CompiledPattern := []
  deriving DecidableEq

/-- One compile loop of `load_config`: each entry whose pattern compiles
is pushed in order; a failing entry is dropped with one warning line. -/
def compileEntries (kind : String) : List ConfigPattern → List CompiledPattern × List String
  | [] => ([], [])
  | e :: rest =>
    let (ps, ws) := compileEntries kind rest
    match parseRegex e.pattern with
    | some re => (⟨re, e.reason⟩ :: ps, ws)
    | none => (ps, ("safe-bash-hook: warn: invalid " ++ kind ++ " regex " ++ e.pattern) :: ws)

/-- `load_config`: `none` models a missing, unreadable or malformed
document (each of which returns the empty `CompiledConfig` in the source);
`some doc` a document that parsed into `PatternsConfig`.  Returns the
compiled config and the diagnostic lines for dropped entries. -/
def load_config (doc : Option PatternsConfig) : CompiledConfig × List String :=
  match doc with
  | none => ({}, [])
  | some c =>
    let (d, wd) := compileEntries "deny" c.deny
    let (a, wa) := compileEntries "allow" c.allow
    ({ deny := d, allow := a }, wd ++ wa)

/-- The allow loops of `check_config`: does any allow pattern match? -/
def anyAllow (ps : List CompiledPattern) (s : List Char) : Bool :=
  ps.any fun p => isMatchL p.re s

/-- The deny loops of `check_config`: first matching deny reason. -/
def firstDeny (s : List Char) : List CompiledPattern → Option String
  | [] => none
  | p :: ps => if isMatchL p.re s then some p.reason else firstDeny s ps

/-- The per-segment loop of `check_config`: an allow match skips the
segment, otherwise a deny match fails with its reason. -/
def checkConfigSegs (config : CompiledConfig) : List (List Char) → Except String Unit
  | [] => .ok ()
  | s :: rest =>
    if anyAllow config.allow s then checkConfigSegs config rest
    else
      match firstDeny s config.deny with
      | some r => .error r
      | none => checkConfigSegs config rest

/-- `check_config` on character lists: whole-command allow, whole-command
deny, then the per-segment loop. -/
def check_configL (cmd : List Char) (config : CompiledConfig) : Except String Unit :=
  if anyAllow config.allow cmd then .ok ()
  else
    match firstDeny cmd config.deny with
    | some r => .error r
    | none => checkConfigSegs config (splitL cmd)

/-- `check_config(cmd, config)` in `config.rs`: `Ok(())` if allowed,
`Err(reason)` if denied. -/
def check_config (cmd : String) (config : CompiledConfig) : Except String Unit :=
  check_configL cmd.data config

/-! ## main.rs: the hook envelope and the overall verdict -/

/-- A JSON value (the shape of `serde_json::Value`). -/
inductive Json where
  | null
  | bool (b : Bool)
  | num (n : Int)
  | str (s : String)
  | arr (xs : List Json)
  | obj (kvs : List (String × Json))

/-- `HookInput`: the envelope fields, with serde's defaults. -/
structure HookInput where
  tool_name : String := ""
  tool_input : Json := .null

/-- `Value::get(key)` on the `tool_input` value. -/
def jsonGet (v : Json) (key : String) : Option Json :=
  match v with
  | .obj kvs => (kvs.find? fun kv => kv.1 = key).map (·.2)
  | _ => none

/-- `Value::as_str`. -/
def jsonAsStr : Json → Option String
  | .str s => some s
  | _ => none

/-- The verdict of one invocation. -/
inductive Verdict where
  | allow
  | deny (reason : String)
  deriving DecidableEq

/-- The decision pipeline of `main`: hardcoded patterns first (cannot be
overridden), then the config layer. -/
def decideCommand (cmd : String) (hardcoded : List DenyPattern) (config : CompiledConfig) : Verdict :=
  match check_command cmd hardcoded with
  | .deny reason => .deny reason
  | .allow =>
    match check_config cmd config with
    | .error reason => .deny reason
    | .ok _ => .allow

/-- The process exit code of a verdict. -/
def exitCode : Verdict → Nat
  | .allow => 0
  | .deny _ => 2

/-- The `Blocked:` diagnostic lines of a verdict. -/
def blockedLines : Verdict → List String
  | .allow => []
  | .deny reason => ["Blocked: " ++ reason]

/-- `main`, as a function of the structural parse outcome of stdin
(`none` models unreadable stdin or malformed envelope JSON), the
hardcoded patterns and the loaded config.  Returns the exit code and the
`Blocked:` lines written to the diagnostic stream. -/
def runMain (inp : Option HookInput) (hardcoded : List DenyPattern)
    (config : CompiledConfig) : Nat × List String :=
  match inp with
  | none => (0, [])
  | some h =>
    if h.tool_name = "Bash" then
      match (jsonGet h.tool_input "command").bind jsonAsStr with
      | some cmd =>
        let v := decideCommand cmd hardcoded config
        (exitCode v, blockedLines v)
      | none => (0, [])
    else (0, [])

/-! ## autoupdate.rs: the staleness-driven refresh trigger -/

/-- `UPDATE_INTERVAL_SECS`. -/
def UPDATE_INTERVAL_SECS : Nat := 3600

/-- `update_needed`, over a seconds-granularity clock: `mtime = none`
models a missing or unreadable marker file; a modification time in the
future (`now < m`, where `duration_since` errors) also triggers. -/
def update_needed (now : Nat) (mtime : Option Nat) : Bool :=
  match mtime with
  | none => true
  | some m => if now < m then true else decide (now - m > UPDATE_INTERVAL_SECS)

/-- The externally visible actions of `maybe_update`, in order. -/
inductive UpdateEvent where
  | touchTimestamp
  | spawnFetch
  deriving DecidableEq

/-- `maybe_update`: when no update is needed it returns immediately;
otherwise it touches the timestamp first and then spawns the detached
fetch. -/
def maybe_update (now : Nat) (mtime : Option Nat) : List UpdateEvent :=
  if !update_needed now mtime then []
  else [.touchTimestamp, .spawnFetch]

/-- The marker state after `maybe_update` (touching rewrites its
modification time to `now`). -/
def markerAfter (now : Nat) (mtime : Option Nat) : Option Nat :=
  if !update_needed now mtime then mtime else some now

/-! ## Spec-side definitions

These re-state parts of the specification in its own words, to be compared
with the definitions embedded from the source. -/

/-- Lift an optional deny reason to a `CheckResult`. -/
def denyOfOpt : Option String → CheckResult
  | some r => .deny r
  | none => .allow

/-- Lift an optional deny reason to a `check_config` result. -/
def exceptOfOpt : Option String → Except String Unit
  | some r => .error r
  | none => .ok ()

/-- Spec step (1): the command verbatim, then each segment in order, is
checked against the builtin deny rules; the first match gives that rule's
reason. -/
def specStep1 (B : List DenyPattern) (cs : List Char) : Option String :=
  (cs :: splitL cs).findSome? fun s =>
    (B.find? fun p => isMatchL p.re s).map (·.reason)

/-- Spec step (4): for each segment in order, a segment matching some user
allow rule is skipped, and otherwise a user deny match on it gives that
rule's reason. -/
def specStep4 (U : CompiledConfig) (segs : List (List Char)) : Option String :=
  segs.findSome? fun s =>
    if U.allow.any fun p => isMatchL p.re s then none
    else (U.deny.find? fun p => isMatchL p.re s).map (·.reason)

/-- The specification's ordered, first-match-wins decision pipeline,
written from the spec's wording: (1) builtin deny on the verbatim command
then on each segment; (2) user allow on the verbatim command; (3) user
deny on the verbatim command; (4) the per-segment user loop; (5) Allow. -/
def specDecide (cmd : String) (B : List DenyPattern) (U : CompiledConfig) : Verdict :=
  match specStep1 B cmd.data with
  | some r => .deny r
  | none =>
    if U.allow.any fun p => isMatchL p.re cmd.data then .allow
    else
      match (U.deny.find? fun p => isMatchL p.re cmd.data).map (·.reason) with
      | some r => .deny r
      | none =>
        match specStep4 U (splitL cmd.data) with
        | some r => .deny r
        | none => .allow

/-- The staleness condition exactly as claim C10 words it: the marker is
missing or unreadable, or its modification time is more than one hour
(3600 seconds) before the current time. -/
def specStale (now : Nat) (mtime : Option Nat) : Prop :=
  mtime = none ∨ ∃ t, mtime = some t ∧ t + 3600 < now

/-- Modelled from the spec: the user-supplied rule document
`safe-bash-patterns.json` is fetched from the repository and is not under
`src/`; per the spec's end-to-end scenario it denies piping to `tee` in
overwrite mode while `tee -a` (append) stays allowed. -/
def teeUserDoc : PatternsConfig :=
  { deny := [⟨"\\|\\s*tee\\s+[^-]", "tee overwrite clobbers the file"⟩], allow := [] }

/-- A user config whose allow list matches every command (the empty regex
matches everywhere): used to witness that builtin denials survive any
allow rule. -/
def permissiveUserConfig : CompiledConfig :=
  { deny := [], allow := [⟨{}, "allow everything"⟩] }

/-- A compiled user allow rule matching exactly the segment `echo ok`. -/
def allowEchoOkRegex : CompiledRegex :=
  (parseRegex "^echo ok$").getD {}

/-- A compiled user deny rule matching the word `forbidden`. -/
def denyForbiddenRegex : CompiledRegex :=
  (parseRegex "forbidden").getD {}

/-! ## Supporting lemmas -/

/-- Sanity: all 37 hardcoded pattern strings compile in the embedded
regex subset (mirroring that the source's `expect` never fires). -/
theorem hardcoded_deny_patterns_length : hardcoded_deny_patterns.length = 37 := by
  decide

/-- `check_segment` returns the first matching pattern's reason. -/
theorem check_segmentL_eq (s : List Char) (B : List DenyPattern) :
    check_segmentL s B = denyOfOpt ((B.find? fun p => isMatchL p.re s).map (·.reason)) := by
  induction B with
  | nil => rfl
  | cons p ps ih =>
    by_cases hp : isMatchL p.re s
    · simp [check_segmentL, hp, List.find?_cons_of_pos, denyOfOpt]
    · simp [check_segmentL, hp, List.find?_cons_of_neg, ih]

/-- The segment loop of `check_command` returns the first segment's first
matching reason. -/
theorem checkSegsL_eq (B : List DenyPattern) (segs : List (List Char)) :
    checkSegsL B segs
      = denyOfOpt (segs.findSome? fun s => (B.find? fun p => isMatchL p.re s).map (·.reason)) := by
  induction segs with
  | nil => rfl
  | cons s rest ih =>
    rw [List.findSome?_cons]
    cases h : (B.find? fun p => isMatchL p.re s).map (·.reason) with
    | none => simpa [checkSegsL, check_segmentL_eq, h, denyOfOpt] using ih
    | some r => simp [checkSegsL, check_segmentL_eq, h, denyOfOpt]

/-- `check_command` is exactly step (1) of the spec pipeline. -/
theorem check_commandL_eq (cmd : List Char) (B : List DenyPattern) :
    check_commandL cmd B = denyOfOpt (specStep1 B cmd) := by
  unfold check_commandL specStep1
  rw [List.findSome?_cons]
  cases h : (B.find? fun p => isMatchL p.re cmd).map (·.reason) with
  | none => simpa [check_segmentL_eq, h, denyOfOpt] using checkSegsL_eq B (splitL cmd)
  | some r => simp [check_segmentL_eq, h, denyOfOpt]

/-- The deny loop of `check_config` returns the first matching reason. -/
theorem firstDeny_eq (s : List Char) (ps : List CompiledPattern) :
    firstDeny s ps = (ps.find? fun p => isMatchL p.re s).map (·.reason) := by
  induction ps with
  | nil => rfl
  | cons p rest ih =>
    by_cases hp : isMatchL p.re s
    · simp [firstDeny, hp, List.find?_cons_of_pos]
    · simp [firstDeny, hp, List.find?_cons_of_neg, ih]

/-- The segment loop of `check_config` is exactly step (4) of the spec
pipeline. -/
theorem checkConfigSegs_eq (U : CompiledConfig) (segs : List (List Char)) :
    checkConfigSegs U segs = exceptOfOpt (specStep4 U segs) := by
  induction segs with
  | nil => rfl
  | cons s rest ih =>
    unfold checkConfigSegs specStep4
    rw [List.findSome?_cons]
    by_cases ha : U.allow.any fun p => isMatchL p.re s
    · simpa [anyAllow, ha, specStep4] using ih
    · cases h : (U.deny.find? fun p => isMatchL p.re s).map (·.reason) with
      | none => simpa [anyAllow, ha, firstDeny_eq, h, specStep4] using ih
      | some r => simp [anyAllow, ha, firstDeny_eq, h, exceptOfOpt]

/-- The compile loops of `load_config` keep exactly the compiling entries,
in order. -/
theorem compileEntries_fst (kind : String) (es : List ConfigPattern) :
    (compileEntries kind es).1 = es.filterMap fun e =>
      (parseRegex e.pattern).map fun re => (⟨re, e.reason⟩ : CompiledPattern) := by
  induction es with
  | nil => rfl
  | cons e rest ih =>
    rcases hrec : compileEntries kind rest with ⟨ps, ws⟩
    rw [hrec] at ih
    cases hp : parseRegex e.pattern <;>
      simp [compileEntries, hrec, hp, List.filterMap_cons] <;> exact ih

/-- The compile loops of `load_config` emit one diagnostic per invalid
entry. -/
theorem compileEntries_snd_length (kind : String) (es : List ConfigPattern) :
    (compileEntries kind es).2.length
      = (es.filter fun e => (parseRegex e.pattern).isNone).length := by
  induction es with
  | nil => rfl
  | cons e rest ih =>
    rcases hrec : compileEntries kind rest with ⟨ps, ws⟩
    rw [hrec] at ih
    cases hp : parseRegex e.pattern <;>
      simp [compileEntries, hrec, hp, List.filter_cons] <;> exact ih

/-! ## Claim theorems -/

/-- C1: for every command string and every user rule set, if the command
matches a built-in deny pattern — verbatim or on at least one segment
produced by `split_command` — then the overall verdict is Deny with exit
code 2; no user allow rule can turn it into Allow. -/
theorem builtin_deny_never_overridden (cmd : String) (config : CompiledConfig)
    (h : (∃ p ∈ hardcoded_deny_patterns, isMatchL p.re cmd.data = true) ∨
         ∃ s ∈ splitL cmd.data, ∃ p ∈ hardcoded_deny_patterns, isMatchL p.re s = true) :
    ∃ r, decideCommand cmd hardcoded_deny_patterns config = .deny r ∧
         exitCode (decideCommand cmd hardcoded_deny_patterns config) = 2 := by
  cases h1 : specStep1 hardcoded_deny_patterns cmd.data with
  | some r =>
    refine ⟨r, ?_, ?_⟩ <;>
      simp [decideCommand, check_command, check_commandL_eq, h1, denyOfOpt, exitCode]
  | none =>
    exfalso
    rw [specStep1, List.findSome?_eq_none_iff] at h1
    rcases h with ⟨p, hp, hm⟩ | ⟨s, hs, p, hp, hm⟩
    · have h2 := h1 cmd.data (List.mem_cons_self _ _)
      rw [Option.map_eq_none', List.find?_eq_none] at h2
      exact absurd hm (by simpa using h2 p hp)
    · have h2 := h1 s (List.mem_cons_of_mem _ hs)
      rw [Option.map_eq_none', List.find?_eq_none] at h2
      exact absurd hm (by simpa using h2 p hp)

/-- C1 witness: `rm -rf /` matches a built-in deny pattern and is denied
with exit code 2 even under a user config whose allow rule matches every
command. -/
theorem builtin_deny_never_overridden_witness :
    ∃ r, decideCommand "rm -rf /" hardcoded_deny_patterns permissiveUserConfig = .deny r ∧
         exitCode (decideCommand "rm -rf /" hardcoded_deny_patterns permissiveUserConfig) = 2 :=
  builtin_deny_never_overridden "rm -rf /" permissiveUserConfig (Or.inl (by decide))

/-- C2 (code bug): the code denies `git push --force-with-lease origin
main` — the built-in pattern `\bgit\s+push\s+.*(-f|--force)\b` matches,
since the word boundary after `--force` is satisfied by the following `-`
— although the spec and the repository's own integration test
`allows_git_push_force_with_lease` require Allow.  No user config can
rescue it.  The claim's second half (`git push --force` → Deny) does hold. -/
theorem force_with_lease_denied_by_code :
    check_command "git push --force-with-lease origin main" hardcoded_deny_patterns
      = .deny "Destructive: git force push" ∧
    check_command "git push --force origin main" hardcoded_deny_patterns
      = .deny "Destructive: git force push" ∧
    ∀ config : CompiledConfig,
      decideCommand "git push --force-with-lease origin main" hardcoded_deny_patterns config
        = .deny "Destructive: git force push" := by
  have h1 : check_command "git push --force-with-lease origin main" hardcoded_deny_patterns
      = .deny "Destructive: git force push" := by decide
  refine ⟨h1, by decide, fun config => ?_⟩
  unfold decideCommand
  rw [h1]

/-- C3 counterexample: under the built-in rule set alone,
`echo data | tee output.txt` yields verdict Allow, not Deny as the claim
states — no built-in pattern mentions `tee`. -/
theorem tee_overwrite_allowed_by_builtin_alone :
    check_command "echo data | tee output.txt" hardcoded_deny_patterns = .allow ∧
    decideCommand "echo data | tee output.txt" hardcoded_deny_patterns {} = .allow := by
  have h1 : check_command "echo data | tee output.txt" hardcoded_deny_patterns = .allow := by
    decide
  refine ⟨h1, ?_⟩
  unfold decideCommand
  rw [h1]
  decide

/-- C3 amended: under the built-in rule set alone both tee commands yield
Allow; with the user rule document (modelled from the spec as a deny rule
on pipe-to-tee without `-a`), `echo data | tee output.txt` yields Deny
while `echo data | tee -a log.txt` yields Allow. -/
theorem tee_policy_from_user_rules :
    check_command "echo data | tee output.txt" hardcoded_deny_patterns = .allow ∧
    check_command "echo data | tee -a log.txt" hardcoded_deny_patterns = .allow ∧
    decideCommand "echo data | tee output.txt" hardcoded_deny_patterns
      (load_config (some teeUserDoc)).1 = .deny "tee overwrite clobbers the file" ∧
    decideCommand "echo data | tee -a log.txt" hardcoded_deny_patterns
      (load_config (some teeUserDoc)).1 = .allow := by
  exact ⟨by decide, by decide, by decide, by decide⟩

/-- C4: for every command, builtin rule set and user rule set, the
implemented decision procedure equals the spec's ordered, first-match-wins
pipeline: (1) builtin deny on the verbatim command then each segment;
(2) user allow on the verbatim command; (3) user deny on the verbatim
command; (4) the per-segment allow-skip/deny loop; (5) Allow. -/
theorem decide_pipeline_matches_spec_order (cmd : String) (B : List DenyPattern)
    (U : CompiledConfig) :
    decideCommand cmd B U = specDecide cmd B U := by
  unfold decideCommand specDecide check_command check_config check_configL
  rw [check_commandL_eq]
  cases h1 : specStep1 B cmd.data with
  | some r => rfl
  | none =>
    show (match (if anyAllow U.allow cmd.data then Except.ok ()
          else match firstDeny cmd.data U.deny with
            | some r => Except.error r
            | none => checkConfigSegs U (splitL cmd.data)) with
      | .error reason => Verdict.deny reason
      | .ok _ => Verdict.allow) = _
    by_cases ha : U.allow.any fun p => isMatchL p.re cmd.data
    · simp [anyAllow, ha]
    · rw [firstDeny_eq]
      cases h3 : (U.deny.find? fun p => isMatchL p.re cmd.data).map (·.reason) with
      | some r => simp [anyAllow, ha, h3]
      | none =>
        rw [checkConfigSegs_eq]
        cases h4 : specStep4 U (splitL cmd.data) with
        | some r => simp [anyAllow, ha, h3, h4, exceptOfOpt]
        | none => simp [anyAllow, ha, h3, h4, exceptOfOpt]

/-- C5: a user allow rule matching only the segment `echo ok` (not the
whole command and not the other segment) does not rescue the compound
command `echo ok && forbidden` from a user deny rule matching
`forbidden`: the verdict is Deny with the deny rule's reason. -/
theorem segment_allow_does_not_leak (pa pd : CompiledRegex) (ra rd : String)
    (h1 : isMatchL pa (String.data "echo ok") = true)
    (h2 : isMatchL pa (String.data "echo ok && forbidden") = false)
    (h3 : isMatchL pa (String.data "forbidden") = false)
    (h4 : isMatchL pd (String.data "forbidden") = true) :
    decideCommand "echo ok && forbidden" hardcoded_deny_patterns
      { deny := [⟨pd, rd⟩], allow := [⟨pa, ra⟩] } = .deny rd := by
  have hb : check_command "echo ok && forbidden" hardcoded_deny_patterns = .allow := by decide
  have hsplit : splitL (String.data "echo ok && forbidden")
      = [String.data "echo ok", String.data "forbidden"] := by decide
  unfold decideCommand
  rw [hb]
  unfold check_config check_configL
  rw [hsplit]
  cases hpd : isMatchL pd (String.data "echo ok && forbidden") with
  | true => simp [anyAllow, firstDeny, h2, hpd]
  | false => simp [anyAllow, firstDeny, checkConfigSegs, h1, h2, h3, h4, hpd]

/-- C5 witness: with the allow rule `^echo ok$` and the deny rule
`forbidden`, the compound command is denied. -/
theorem segment_allow_does_not_leak_witness :
    decideCommand "echo ok && forbidden" hardcoded_deny_patterns
      { deny := [⟨denyForbiddenRegex, "no forbidden"⟩],
        allow := [⟨allowEchoOkRegex, "echo ok is fine"⟩] } = .deny "no forbidden" :=
  segment_allow_does_not_leak allowEchoOkRegex denyForbiddenRegex "echo ok is fine" "no forbidden"
    (by decide) (by decide) (by decide) (by decide)

/-- C6: segmentation is quote-aware: under the built-in rule set
`grep -r 'rm -rf' docs/` (the denied literal only as quoted argument
text) is Allowed while `echo ok && rm -rf /` (the literal as an
operator-separated sub-command) is Denied; and inside single- or
double-quote mode the operator characters `&`, `|`, `;` never break a
segment — the splitter just copies them into the current segment. -/
theorem quote_aware_splitting :
    decideCommand "grep -r 'rm -rf' docs/" hardcoded_deny_patterns {} = .allow ∧
    decideCommand "echo ok && rm -rf /" hardcoded_deny_patterns {} = .deny "Destructive: rm -rf" ∧
    ∀ (sq dq : Bool) (c : Char) (rest cur : List Char) (segs : List (List Char)),
      (sq = true ∨ dq = true) → (c = '&' ∨ c = '|' ∨ c = ';') →
      splitGo (c :: rest) sq dq cur segs = splitGo rest sq dq (cur ++ [c]) segs := by
  refine ⟨by decide, by decide, ?_⟩
  intro sq dq c rest cur segs h hc
  cases sq <;> cases dq
  · simp at h
  · rcases hc with rfl | rfl | rfl
    · cases rest with
      | nil => rfl
      | cons x xs =>
        by_cases hx : x = '&'
        · subst hx; rfl
        · simp [splitGo, hx]
    · cases rest with
      | nil => rfl
      | cons x xs =>
        by_cases hx : x = '|'
        · subst hx; rfl
        · simp [splitGo, hx]
    · rfl
  · rcases hc with rfl | rfl | rfl
    · cases rest with
      | nil => rfl
      | cons x xs =>
        by_cases hx : x = '&'
        · subst hx; rfl
        · simp [splitGo, hx]
    · cases rest with
      | nil => rfl
      | cons x xs =>
        by_cases hx : x = '|'
        · subst hx; rfl
        · simp [splitGo, hx]
    · rfl
  · rcases hc with rfl | rfl | rfl
    · cases rest with
      | nil => rfl
      | cons x xs =>
        by_cases hx : x = '&'
        · subst hx; rfl
        · simp [splitGo, hx]
    · cases rest with
      | nil => rfl
      | cons x xs =>
        by_cases hx : x = '|'
        · subst hx; rfl
        · simp [splitGo, hx]
    · rfl

/-- C6 witness: a `;` seen in single-quote mode is copied into the
current segment, breaking nothing. -/
theorem quote_aware_splitting_witness :
    splitGo (';' :: String.data "rm -rf /'") true false (String.data "echo '") []
      = splitGo (String.data "rm -rf /'") true false (String.data "echo '" ++ [';']) [] :=
  quote_aware_splitting.2.2 true false ';' (String.data "rm -rf /'") (String.data "echo '") []
    (Or.inl rfl) (Or.inr (Or.inr rfl))

/-- C7: a top-level single `|` (not `||`, not inside quotes) breaks the
segment and pre-seeds the next segment with a leading `|`; in particular
`split_command "cat install.sh | bash"` = `["cat install.sh", "| bash"]`. -/
theorem single_pipe_break_preseeds_pipe :
    split_command "cat install.sh | bash" = ["cat install.sh", "| bash"] ∧
    ∀ (rest cur : List Char) (segs : List (List Char)), rest.head? ≠ some '|' →
      splitGo ('|' :: rest) false false cur segs
        = splitGo rest false false ['|'] (pushSeg segs cur) := by
  refine ⟨by decide, ?_⟩
  intro rest cur segs h
  cases rest with
  | nil => rfl
  | cons x xs =>
    have hx : x ≠ '|' := by simpa using h
    simp [splitGo, hx]

/-- C7 witness: the single-pipe step on the concrete tail of
`cat install.sh | bash`. -/
theorem single_pipe_break_preseeds_pipe_witness :
    splitGo ('|' :: String.data " bash") false false (String.data "cat install.sh") []
      = splitGo (String.data " bash") false false ['|']
          (pushSeg [] (String.data "cat install.sh")) :=
  single_pipe_break_preseeds_pipe.2 (String.data " bash") (String.data "cat install.sh") []
    (by decide)

/-- C8: the process fails open on every input-structural error: when
stdin does not parse, or `tool_name` is not `Bash`, or `tool_input` has no
string-valued `command` field, the process exits 0 and writes no
`Blocked:` line. -/
theorem fail_open_on_structural_errors (inp : Option HookInput)
    (hardcoded : List DenyPattern) (config : CompiledConfig)
    (h : inp = none ∨ ∃ hi, inp = some hi ∧
        (hi.tool_name ≠ "Bash" ∨ (jsonGet hi.tool_input "command").bind jsonAsStr = none)) :
    runMain inp hardcoded config = (0, []) := by
  rcases h with rfl | ⟨hi, rfl, hcase⟩
  · rfl
  · rcases hcase with hn | hc
    · simp [runMain, hn]
    · by_cases hb : hi.tool_name = "Bash" <;> simp [runMain, hb, hc]

/-- C8 witness: a `Read` tool call passes through with exit 0 and no
`Blocked:` line. -/
theorem fail_open_on_structural_errors_witness :
    runMain (some { tool_name := "Read", tool_input := Json.null })
      hardcoded_deny_patterns permissiveUserConfig = (0, []) :=
  fail_open_on_structural_errors (some { tool_name := "Read", tool_input := Json.null })
    hardcoded_deny_patterns permissiveUserConfig
    (Or.inr ⟨{ tool_name := "Read", tool_input := Json.null }, rfl, Or.inl (by decide)⟩)

/-- C9: for every document parsing as the versioned deny/allow shape,
`load_config` compiles exactly the entries whose pattern is a valid
regex, preserving order within each array, and drops only the invalid
entries, one diagnostic each; a wholly malformed or missing document
yields the empty config. -/
theorem load_config_keeps_exactly_valid_entries (doc : PatternsConfig) :
    (load_config (some doc)).1.deny = (doc.deny.filterMap fun e =>
      (parseRegex e.pattern).map fun re => (⟨re, e.reason⟩ : CompiledPattern)) ∧
    (load_config (some doc)).1.allow = (doc.allow.filterMap fun e =>
      (parseRegex e.pattern).map fun re => (⟨re, e.reason⟩ : CompiledPattern)) ∧
    (load_config (some doc)).2.length
      = (doc.deny.filter fun e => (parseRegex e.pattern).isNone).length
        + (doc.allow.filter fun e => (parseRegex e.pattern).isNone).length ∧
    load_config none = ({}, []) := by
  have hd := compileEntries_fst "deny" doc.deny
  have ha := compileEntries_fst "allow" doc.allow
  have hdl := compileEntries_snd_length "deny" doc.deny
  have hal := compileEntries_snd_length "allow" doc.allow
  rcases h1 : compileEntries "deny" doc.deny with ⟨d, wd⟩
  rcases h2 : compileEntries "allow" doc.allow with ⟨a, wa⟩
  rw [h1] at hd hdl
  rw [h2] at ha hal
  refine ⟨?_, ?_, ?_, rfl⟩ <;> simp [load_config, h1, h2]
  · exact hd
  · exact ha
  · rw [hdl, hal]

/-- C10 counterexample: with the marker present and its modification time
in the future (now = 0, mtime = 5), `maybe_update` does trigger although
the claim's staleness condition (missing/unreadable, or mtime more than
3600 seconds before now) does not hold — the claimed "if and only if"
fails. -/
theorem update_needed_future_mtime_cex :
    maybe_update 0 (some 5) = [UpdateEvent.touchTimestamp, UpdateEvent.spawnFetch] ∧
    ¬ specStale 0 (some 5) := by
  refine ⟨by decide, ?_⟩
  rintro (h | ⟨t, ht, hlt⟩)
  · exact Option.noConfusion h
  · rw [Option.some_inj] at ht
    omega

/-- C10 amended: `maybe_update` triggers exactly when `update_needed`
holds — the marker is missing/unreadable, or its modification time is in
the future, or more than 3600 seconds before now; when it triggers it
first rewrites the marker (to now) and only then spawns the detached
fetch; when fresh it performs no write and spawns nothing. -/
theorem maybe_update_characterization (now : Nat) (mtime : Option Nat) :
    maybe_update now mtime
      = (if update_needed now mtime then [UpdateEvent.touchTimestamp, UpdateEvent.spawnFetch]
         else []) ∧
    (update_needed now mtime = true ↔
      mtime = none ∨ ∃ t, mtime = some t ∧ (now < t ∨ t + 3600 < now)) ∧
    (update_needed now mtime = false →
      markerAfter now mtime = mtime ∧ maybe_update now mtime = []) ∧
    (update_needed now mtime = true → markerAfter now mtime = some now) := by
  refine ⟨?_, ?_, ?_, ?_⟩
  · unfold maybe_update
    cases update_needed now mtime <;> simp
  · cases mtime with
    | none => simp [update_needed]
    | some t =>
      by_cases hlt : now < t
      · simp [update_needed, hlt]
      · simp [update_needed, hlt, UPDATE_INTERVAL_SECS]
        omega
  · intro hf
    unfold markerAfter maybe_update
    simp [hf]
  · intro ht
    unfold markerAfter
    simp [ht]

end SafeBash
